import Mathlib

/-!
Verification of the LoCoPilot agent runtime core against its specification.

The development shallowly embeds the relevant parts of the source:

* `UnifiedAgent.run` (the agentic loop with its repetition guard, nudge
  counter, iteration bound and post-loop notes);
* the OpenAI-compatible streaming adapter of
  `locopilotLanguageModelProvider.ts` (tool-call fragment accumulation and
  end-of-stream finalization, exactly-once stream completion);
* the context compactor of the built-in agent
  (`computeTotalTokenCount`, `getHistoryWithSummarizationIfNeeded` and its
  trigger / outer error handler).

External effects (the model, tool implementations, the JSON parser of the
host platform, cancellation) are passed in as explicit parameters, so every
definition is executable.
-/

namespace LoCoPilot

/-! ## String helpers (substring containment, mirroring `String.includes` / the
`/canceled|cancellation/i` regex test) -/

/-- Character-list version of a starts-with test. -/
def startsWithChars : List Char → List Char → Bool
  | [], _ => true
  | _ :: _, [] => false
  | a :: as, b :: bs => a == b && startsWithChars as bs

/-- Character-list version of a containment (substring) test. -/
def containsChars (pat : List Char) : List Char → Bool
  | [] => startsWithChars pat []
  | b :: bs => startsWithChars pat (b :: bs) || containsChars pat bs

/-- `strContains s pat` is true when `pat` occurs contiguously in `s`
(JavaScript `s.includes(pat)`). -/
def strContains (s pat : String) : Bool :=
  containsChars pat.data s.data

/-! ## Agent loop data model (`UnifiedAgent.run`, src/unnamed/part_005) -/

/-- A finalized tool call as collected from the response stream.
The loop only ever uses the serialized form `JSON.stringify(tc.parameters || {})`
of the parameters, so the embedding carries that serialization directly. -/
structure ToolCall where
  name : String
  toolCallId : String
  paramsKey : String
  deriving DecidableEq, Repr

/-- The repetition-detection key: `name + ":" + JSON.stringify(parameters)`. -/
def keyOf (tc : ToolCall) : String := tc.name ++ ":" ++ tc.paramsKey

/-- The outcome of one chat request, as observed by the loop after the
stream is fully consumed: the accumulated text and the finalized tool calls. -/
structure ModelResponse where
  text : String
  toolCalls : List ToolCall
  deriving DecidableEq, Repr

inductive Role
  | system
  | user
  | assistant
  deriving DecidableEq, Repr

inductive MsgPart
  | text (value : String)
  | toolUse (tc : ToolCall)
  | toolResult (toolCallId : String) (values : List String) (isError : Bool)
  | image
  deriving DecidableEq, Repr

structure Msg where
  role : Role
  content : List MsgPart
  deriving DecidableEq, Repr

/-- What `toolsService.invokeTool` returned for one call: the items of
`result.content`, or a thrown error message. -/
inductive ToolResultItem
  | textItem (value : String)
  | imageItem
  | otherItem
  deriving DecidableEq, Repr

/-- The completion marker (`TASK_COMPLETE_SIGNAL` from agentPrompts). -/
def TASK_COMPLETE_SIGNAL : String := "[TASK_COMPLETE]"

def REPEATED_TOOL_CALL_THRESHOLD : Nat := 3

def REPEATED_TOOL_CALL_WINDOW : Nat := 6

def DEFAULT_MAX_ITERATIONS : Nat := 25

/-- `Math.min(100, Math.max(1, maxIterations))` from the constructor. -/
def clampMaxIterations (n : Nat) : Nat := min 100 (max 1 n)

/-- The synthetic nudge message appended when the model neither calls a tool
nor emits the completion marker. -/
def nudgeMsg : Msg :=
  ⟨Role.user, [MsgPart.text ("Use the available tools to complete the task, or if you have given your final answer, end your next message with " ++ TASK_COMPLETE_SIGNAL ++ ".")]⟩

/-- The user-visible note emitted when the repetition guard fires. -/
def repetitionNote : String :=
  "\n*Stopped: the same tool was called repeatedly with no progress. If the task is done, you can start a new message.*\n"

/-- The post-loop note for runs that hit the iteration bound. -/
def iterationLimitNote : String :=
  "\n\n*Note: Reached maximum number of iterations. The task may be incomplete.*"

/-- The post-loop note for silent runs that never displayed anything. -/
def noResponseNote : String :=
  "The model did not return a response. Please try again or try with another model."

/-- Keep the last `n` elements (`splice(0, length - n)` when over the window). -/
def lastN (n : Nat) (l : List String) : List String := l.drop (l.length - n)

/-- Rejoin the segments that follow the first marker occurrence: each inner
segment loses the whitespace on both sides, the last one its leading
whitespace. -/
def joinStripAfter : List String → String
  | [] => ""
  | [s] => s.trimLeft
  | s :: rest => s.trim ++ joinStripAfter rest

/-- Segments of a marker-split text, rejoined with the whitespace around each
marker occurrence removed (the global regex replacement of the marker and
its surrounding whitespace by the empty string). -/
def joinStripSegs : List String → String
  | [] => ""
  | [s] => s
  | s :: rest => s.trimRight ++ joinStripAfter rest

/-- The displayed text: the completion marker (with surrounding whitespace)
stripped and the result trimmed, exactly when the marker occurs. -/
def stripSignal (text : String) : String :=
  if strContains text TASK_COMPLETE_SIGNAL then
    (joinStripSegs (text.splitOn TASK_COMPLETE_SIGNAL)).trim
  else text

/-- The text parts of one tool result, in order: text items verbatim, image
items replaced by the placeholder, everything else skipped. -/
def resultParts : List ToolResultItem → List String
  | [] => []
  | ToolResultItem.textItem v :: rest =>
      v :: resultParts rest
  | ToolResultItem.imageItem :: rest =>
      "Image file — see the image in the next user message for vision." :: resultParts rest
  | ToolResultItem.otherItem :: rest => resultParts rest

/-- Number of image items pulled out of a tool result for the vision message. -/
def imageCountOf : List ToolResultItem → Nat
  | [] => 0
  | ToolResultItem.imageItem :: rest => imageCountOf rest + 1
  | _ :: rest => imageCountOf rest

/-- Dispatch one tool call (the `try { invokeTool ... } catch` body): returns
the `tool_result` message part and the number of extracted images. -/
def execOneTool (toolExec : ToolCall → Except String (List ToolResultItem))
    (tc : ToolCall) : MsgPart × Nat :=
  match toolExec tc with
  | Except.ok items =>
    let content := resultParts items
    let content := if content.isEmpty then ["Tool executed successfully (no output)"] else content
    (MsgPart.toolResult tc.toolCallId content false, imageCountOf items)
  | Except.error e =>
    (MsgPart.toolResult tc.toolCallId ["Error executing tool: " ++ e] true, 0)

/-- The user message carrying tool-produced images for vision. -/
def visionMsg (n : Nat) : Msg :=
  ⟨Role.user, MsgPart.text "Image(s) from readFile — view below for vision:" :: List.replicate n MsgPart.image⟩

/-- Why the loop `break`s out of an iteration. -/
inductive ExitReason
  | done
  | silence
  | repetition
  deriving DecidableEq, Repr

/-- Everything observable about one loop iteration: the response that the
chat request produced, the tool calls actually dispatched, whether a nudge
was appended, and the break reason if the iteration ended the loop. -/
structure IterRecord where
  response : ModelResponse
  executed : List ToolCall
  nudged : Bool
  exit : Option ExitReason
  deriving DecidableEq, Repr

/-- The mutable locals of `UnifiedAgent.run`. -/
structure CoreState where
  iterationCount : Nat
  consecutiveNoComplete : Nat
  conversation : List Msg
  recentToolKeys : List String
  notes : List String
  hasEverEmitted : Bool
  deriving DecidableEq, Repr

/-- One iteration of the agentic loop (lines 81–362 of `UnifiedAgent.run`),
given the response the stream delivered for this request. -/
def iterStep (toolExec : ToolCall → Except String (List ToolResultItem))
    (resp : ModelResponse) (c : CoreState) : CoreState × IterRecord :=
  let iterationCount := c.iterationCount + 1
  let fullText := resp.text
  let displayText := stripSignal fullText
  let hasEverEmitted := c.hasEverEmitted || !(displayText == "")
  let assistantContent :=
    (if fullText == "" then [] else [MsgPart.text fullText]) ++ resp.toolCalls.map MsgPart.toolUse
  let conversation :=
    if assistantContent.isEmpty then c.conversation
    else c.conversation ++ [⟨Role.assistant, assistantContent⟩]
  match resp.toolCalls with
  | [] =>
    if strContains fullText TASK_COMPLETE_SIGNAL then
      ({ c with
          iterationCount := iterationCount
          conversation := conversation
          hasEverEmitted := hasEverEmitted },
        ⟨resp, [], false, some ExitReason.done⟩)
    else
      let cnt := c.consecutiveNoComplete + 1
      if 2 ≤ cnt then
        ({ c with
            iterationCount := iterationCount
            consecutiveNoComplete := cnt
            conversation := conversation
            hasEverEmitted := hasEverEmitted },
          ⟨resp, [], false, some ExitReason.silence⟩)
      else
        ({ c with
            iterationCount := iterationCount
            consecutiveNoComplete := cnt
            conversation := conversation ++ [nudgeMsg]
            hasEverEmitted := hasEverEmitted },
          ⟨resp, [], true, none⟩)
  | tc0 :: _ =>
    let thisRoundKeys := resp.toolCalls.map keyOf
    let recent := lastN REPEATED_TOOL_CALL_WINDOW (c.recentToolKeys ++ thisRoundKeys)
    let sameKeyCount := recent.count (keyOf tc0)
    if REPEATED_TOOL_CALL_THRESHOLD ≤ sameKeyCount then
      ({ c with
          iterationCount := iterationCount
          consecutiveNoComplete := 0
          conversation := conversation
          recentToolKeys := recent
          notes := c.notes ++ [repetitionNote]
          hasEverEmitted := hasEverEmitted },
        ⟨resp, [], false, some ExitReason.repetition⟩)
    else
      let results := resp.toolCalls.map (execOneTool toolExec)
      let conversation := conversation ++ [⟨Role.user, results.map Prod.fst⟩]
      let imgs := results.foldl (fun a r => a + r.2) 0
      let conversation := if 0 < imgs then conversation ++ [visionMsg imgs] else conversation
      ({ c with
          iterationCount := iterationCount
          consecutiveNoComplete := 0
          conversation := conversation
          recentToolKeys := recent
          hasEverEmitted := hasEverEmitted },
        ⟨resp, resp.toolCalls, false, none⟩)

/-- The `while` loop, by fuel (remaining allowed iterations). The model is a
function from the 0-based request number to the response its stream yields;
`cancelledAt i` is the cancellation token sampled at the top of iteration
`i + 1`. Returns the final state and the list of iteration records. -/
def runAux (m : Nat → ModelResponse)
    (toolExec : ToolCall → Except String (List ToolResultItem))
    (cancelledAt : Nat → Bool) : Nat → CoreState → CoreState × List IterRecord
  | 0, c => (c, [])
  | Nat.succ fuel, c =>
    if cancelledAt c.iterationCount then (c, [])
    else
      let s := iterStep toolExec (m c.iterationCount) c
      match s.2.exit with
      | some _ => (s.1, [s.2])
      | none =>
        let t := runAux m toolExec cancelledAt fuel s.1
        (t.1, s.2 :: t.2)

/-- Result of a whole `UnifiedAgent.run` invocation. Each trace record is one
issued chat request together with what the loop did with its response. -/
structure RunResult where
  finalState : CoreState
  trace : List IterRecord
  notes : List String
  deriving Repr

def initialState (initialMessages : List Msg) : CoreState :=
  ⟨0, 0, initialMessages, [], [], false⟩

/-- `UnifiedAgent.run`: the clamped iteration bound, the loop, and the
post-loop notes (lines 365–381). -/
def agentRun (maxIterationsCfg : Nat) (m : Nat → ModelResponse)
    (toolExec : ToolCall → Except String (List ToolResultItem))
    (cancelledAt : Nat → Bool) (initialMessages : List Msg) : RunResult :=
  let maxIter := clampMaxIterations maxIterationsCfg
  let r := runAux m toolExec cancelledAt maxIter (initialState initialMessages)
  let c := r.1
  let notes :=
    if maxIter ≤ c.iterationCount ∨ 2 ≤ c.consecutiveNoComplete then
      if 2 ≤ c.consecutiveNoComplete ∧ c.hasEverEmitted = false then
        c.notes ++ [noResponseNote]
      else if maxIter ≤ c.iterationCount then
        c.notes ++ [iterationLimitNote]
      else c.notes
    else c.notes
  ⟨c, r.2, notes⟩

/-! ## Streaming adapter: `_callOpenAI` of locopilotLanguageModelProvider.ts

The adapter consumes server-sent chunks; each parsed `data:` JSON carries an
optional text delta, an optional reasoning delta and a list of tool-call
deltas. Tool-call deltas are accumulated per stream-local index and only
finalized in the `onEnd` handler. The host JSON parser is passed in as a
parameter `jparse` (with `emptyObj` the parse of `{}`), since the source
delegates to the platform `JSON.parse`. -/

/-- One entry of `choice.delta.tool_calls`. -/
structure ToolCallDelta where
  index : Option Nat
  id : Option String
  name : Option String
  args : Option String
  deriving DecidableEq, Repr

/-- One parsed streaming chunk (`choice.delta`). -/
structure OpenAIDelta where
  content : Option String
  reasoning : Option String
  toolCallDeltas : List ToolCallDelta
  deriving DecidableEq, Repr

/-- One accumulator entry (`{ id?, name?, args }`). -/
structure ToolCallAcc where
  id : Option String
  name : Option String
  args : String
  deriving DecidableEq, Repr

/-- The `Map<number, …>` of accumulated tool calls, insertion-ordered. -/
abbrev AccMap := List (Nat × ToolCallAcc)

def lookupAcc (m : AccMap) (i : Nat) : Option ToolCallAcc :=
  match m with
  | [] => none
  | (j, a) :: rest => if j = i then some a else lookupAcc rest i

def setAcc (m : AccMap) (i : Nat) (a : ToolCallAcc) : AccMap :=
  match m with
  | [] => [(i, a)]
  | (j, b) :: rest => if j = i then (j, a) :: rest else (j, b) :: setAcc rest i a

/-- Apply one tool-call delta: `id`/`name` are set when truthy (non-empty
string), `arguments` is appended whenever defined. -/
def applyToolCallDelta (m : AccMap) (tc : ToolCallDelta) : AccMap :=
  let idx := tc.index.getD 0
  let acc := (lookupAcc m idx).getD ⟨none, none, ""⟩
  let acc := match tc.id with
    | some s => if s == "" then acc else { acc with id := some s }
    | none => acc
  let acc := match tc.name with
    | some s => if s == "" then acc else { acc with name := some s }
    | none => acc
  let acc := match tc.args with
    | some s => { acc with args := acc.args ++ s }
    | none => acc
  setAcc m idx acc

/-- Canonical stream event, with the parsed parameter payload abstract. -/
inductive StreamEvent (α : Type)
  | text (value : String)
  | thinking (value : String)
  | toolUse (name : String) (toolCallId : String) (parameters : α)
  deriving DecidableEq, Repr

/-- Events emitted while handling one data chunk (text first, then
reasoning; both only when truthy). No tool_use is ever emitted here. -/
def deltaEvents {α : Type} (d : OpenAIDelta) : List (StreamEvent α) :=
  (match d.content with
    | some s => if s == "" then [] else [StreamEvent.text s]
    | none => []) ++
  (match d.reasoning with
    | some s => if s == "" then [] else [StreamEvent.thinking s]
    | none => [])

/-- Consume all data chunks: collect the immediately-emitted events and fold
every tool-call delta into the accumulator map. -/
def processDeltas (α : Type) (ds : List OpenAIDelta) : List (StreamEvent α) × AccMap :=
  ds.foldl
    (fun p d => (p.1 ++ deltaEvents d, d.toolCallDeltas.foldl applyToolCallDelta p.2))
    ([], [])

def insertSorted (n : Nat) : List Nat → List Nat
  | [] => [n]
  | x :: xs => if n ≤ x then n :: x :: xs else x :: insertSorted n xs

/-- `Array.from(keys).sort((a, b) => a - b)`. -/
def sortNats : List Nat → List Nat
  | [] => []
  | x :: xs => insertSorted x (sortNats xs)

/-- The `onEnd` finalization: walk indices in ascending order; an entry is
emitted only when both `id` and `name` arrived; empty argument text yields
the empty object, unparsable argument text falls back to the empty object. -/
def finalizeToolCalls {α : Type} (jparse : String → Option α) (emptyObj : α)
    (m : AccMap) : List (StreamEvent α) :=
  (sortNats (m.map Prod.fst)).filterMap fun idx =>
    match lookupAcc m idx with
    | none => none
    | some acc =>
      match acc.id, acc.name with
      | some theId, some theName =>
        let params := if acc.args == "" then emptyObj else (jparse acc.args).getD emptyObj
        some (StreamEvent.toolUse theName theId params)
      | _, _ => none

/-- The full event sequence one `_callOpenAI` stream produces: the per-chunk
events in arrival order followed by the end-of-stream tool calls. -/
def openAIStreamEvents {α : Type} (jparse : String → Option α) (emptyObj : α)
    (ds : List OpenAIDelta) : List (StreamEvent α) :=
  (processDeltas α ds).1 ++ finalizeToolCalls jparse emptyObj (processDeltas α ds).2

def strConcat : List String → String
  | [] => ""
  | s :: rest => s ++ strConcat rest

/-- Concatenation, in arrival order, of every argument fragment addressed to
stream-local index `idx`. -/
def concatArgsFor (idx : Nat) (ds : List OpenAIDelta) : String :=
  strConcat (ds.map fun d =>
    strConcat (d.toolCallDeltas.filterMap fun tc =>
      if tc.index.getD 0 = idx then tc.args else none))

/-! ## Exactly-once stream completion: `_doSendChatRequest` -/

/-- A completion action performed on the `AsyncIterableSource`. -/
inductive StreamDone
  | resolved
  | rejected (message : String)
  deriving DecidableEq, Repr

/-- The `onEnd` handler finishes by resolving the stream promise, whatever
the accumulator held; combined outcome of one consumed stream. -/
def openAIStreamOutcome {α : Type} (jparse : String → Option α) (emptyObj : α)
    (ds : List OpenAIDelta) : List (StreamEvent α) × StreamDone :=
  (openAIStreamEvents jparse emptyObj ds, StreamDone.resolved)

/-- `_getCanceledMessage()`. -/
def canceledMessage : String := "Request was canceled. You can start a new request anytime."

/-- ASCII lowering of one character; the case-insensitivity of the
`/canceled|cancellation/i` test only involves ASCII letters. -/
def charLower (c : Char) : Char :=
  if 65 ≤ c.toNat ∧ c.toNat ≤ 90 then Char.ofNat (c.toNat + 32) else c

def strLower (s : String) : String := ⟨s.data.map charLower⟩

/-- `_isCanceledError`: the `/canceled|cancellation/i` test. -/
def isCanceledError (msg : String) : Bool :=
  strContains (strLower msg) "canceled" || strContains (strLower msg) "cancellation"

/-- The provider branch of `_doSendChatRequest`: dispatch on the provider
tag; an unknown provider throws. The per-provider call is a parameter whose
outcome is its normal return or its thrown error message. -/
def providerDispatch (provider : String)
    (call : String → Except String Unit) : Except String Unit :=
  if provider == "openai" ∨ provider == "anthropic" ∨ provider == "google"
      ∨ provider == "huggingface" ∨ provider == "ollama" ∨ provider == "localhost" then
    call provider
  else Except.error ("Unsupported provider: " ++ provider)

/-- Outcome of `_doSendChatRequest`: the stream-completion actions performed,
in order, and the value returned (or error thrown) to the caller. -/
structure SendOutcome where
  completions : List StreamDone
  result : Except String Unit
  deriving Repr

/-- The `try`/`catch`/`finally` of `_doSendChatRequest` around the provider call:
the catch sets the `rejected` flag, rewrites cancellation errors to the
neutral message, rejects the stream and rethrows; the finally resolves the
stream exactly when no rejection happened. -/
def doSendChatRequest (call : Except String Unit) : SendOutcome :=
  let r :=
    match call with
    | Except.ok v => (false, ([] : List StreamDone), Except.ok v)
    | Except.error e =>
      let msg := if isCanceledError e then canceledMessage else e
      (true, [StreamDone.rejected msg], Except.error msg)
  let completions := if r.1 then r.2.1 else r.2.1 ++ [StreamDone.resolved]
  ⟨completions, r.2.2⟩

/-! ## Context compactor (src/unnamed/part_002) -/

/-- One prior exchange, reduced to the fields the compactor reads or
rebuilds: an id carried over by the object spread, the request message, and
the response parts. -/
structure HistoryEntry where
  requestId : String
  requestMessage : String
  responseParts : List String
  deriving DecidableEq, Repr

/-- The synthetic summary entry: the first old entry spread with its message
replaced by the placeholder and its response by the summary markdown. -/
def summaryEntryFrom (first : HistoryEntry) (summaryText : String) : HistoryEntry :=
  { requestId := first.requestId
    requestMessage := "[Earlier conversation summary]"
    responseParts := [summaryText] }

/-- `getHistoryWithSummarizationIfNeeded`. The summarizer model call is a
parameter from old entries and the summary-token cap to either its trimmed
output or its thrown error; `cancelledAfter` is the token state sampled
after that call returns. A thrown summarizer error propagates (there is no
catch in this function). -/
def getHistoryWithSummarizationIfNeeded
    (history : List HistoryEntry)
    (summarize : List HistoryEntry → Nat → Except String String)
    (maxInputTokens : Nat) (cancelledAfter : Bool) :
    Except String (List HistoryEntry) :=
  if history.length ≤ 1 then Except.ok history
  else
    let keepCount := max 1 ((history.length + 9) / 10)
    let recent := history.drop (history.length - keepCount)
    let oldEntries := history.take (history.length - keepCount)
    match oldEntries with
    | [] => Except.ok history
    | first :: _ =>
      let maxSummaryTokens := max 100 (maxInputTokens / 10)
      match summarize oldEntries maxSummaryTokens with
      | Except.error e => Except.error e
      | Except.ok summaryText =>
        if summaryText == "" ∨ cancelledAfter then Except.ok history
        else Except.ok (summaryEntryFrom first summaryText :: recent)

/-- The auto-summarize trigger in the built-in agent: compaction runs only
when the projected total reaches 90% of the input budget and more than one
history entry exists (`totalTokens >= 0.9 * maxInputTokens` is stated over
naturals as `10 * totalTokens >= 9 * maxInputTokens`). -/
def maybeCompact (history : List HistoryEntry)
    (summarize : List HistoryEntry → Nat → Except String String)
    (cancelledAfter : Bool) (totalTokens maxInputTokens : Nat) :
    Except String (List HistoryEntry) :=
  if 9 * maxInputTokens ≤ 10 * totalTokens ∧ 1 < history.length then
    getHistoryWithSummarizationIfNeeded history summarize maxInputTokens cancelledAfter
  else Except.ok history

/-- How the enclosing turn reacts to the compaction stage: a normally
returned history lets the turn proceed; a thrown error is caught by the
outer handler of the turn, which surfaces an error message and ends the
invocation. -/
inductive TurnOutcome
  | proceeded (historyUsed : List HistoryEntry)
  | erroredOut (message : String)
  deriving DecidableEq, Repr

/-- The compaction stage as seen from the outer `try`/`catch` of the
invoke method of the built-in agent. -/
def runTurnCompactionStage (history : List HistoryEntry)
    (summarize : List HistoryEntry → Nat → Except String String)
    (cancelledAfter : Bool) (totalTokens maxInputTokens : Nat) : TurnOutcome :=
  match maybeCompact history summarize cancelledAfter totalTokens maxInputTokens with
  | Except.ok h => TurnOutcome.proceeded h
  | Except.error e =>
    TurnOutcome.erroredOut
      ("**Error calling model:** " ++ e ++ "\n\nPlease check your API key and model configuration.")

/-! ## Token accounting: `computeTotalTokenCount` -/

/-- A chat message as the token counter sees it. -/
structure TokMsg where
  content : List MsgPart
  deriving DecidableEq, Repr

/-- The character fallback for one message:
`Math.ceil(text.length / 4)` over the concatenation of its text parts. -/
def charEstimate (msg : TokMsg) : Nat :=
  let text := String.join (msg.content.map fun p =>
    match p with
    | MsgPart.text v => v
    | _ => "")
  (text.length + 3) / 4

/-- The `try` loop: add provider counts until one call throws; on a throw
the accumulated subtotal so far is kept (the `total` variable is not reset
by the catch). -/
def providerPhase (counter : TokMsg → Except String Nat) :
    List TokMsg → Nat → Except Nat Nat
  | [], total => Except.ok total
  | msg :: rest, total =>
    match counter msg with
    | Except.ok n => providerPhase counter rest (total + n)
    | Except.error _ => Except.error total

/-- `computeTotalTokenCount`: the provider sum, or — after a failure — the
character estimates of every message added on top of the subtotal the `try`
block had already accumulated. -/
def computeTotalTokenCount (counter : TokMsg → Except String Nat)
    (messages : List TokMsg) : Nat :=
  match providerPhase counter messages 0 with
  | Except.ok total => total
  | Except.error subtotal => messages.foldl (fun acc msg => acc + charEstimate msg) subtotal

/-- Sum of the successful provider counts of a message list (used to state
what the fallback mixes in). -/
def okCountSum (counter : TokMsg → Except String Nat) : List TokMsg → Nat
  | [] => 0
  | msg :: rest =>
    (match counter msg with
      | Except.ok n => n
      | Except.error _ => 0) + okCountSum counter rest

/-! ## Concrete instances used by witnesses and counterexamples -/

def tcRep : ToolCall := ⟨"t", "id1", "\x7b\x7d"⟩

def respRep : ModelResponse := ⟨"", [tcRep]⟩

def respSilent : ModelResponse := ⟨"hello", []⟩

def teOk : ToolCall → Except String (List ToolResultItem) := fun _ => Except.ok []

def caFalse : Nat → Bool := fun _ => false

/-- A model that issues a fresh, never-repeating tool call every iteration. -/
def mDistinct : Nat → ModelResponse :=
  fun i => ⟨"", [⟨"tool" ++ toString i, "id" ++ toString i, "\x7b\x7d"⟩]⟩

/-- A toy platform JSON parser for witnesses: recognizes the two complete
objects used below and rejects everything else (in particular fragments). -/
def jparseDemo : String → Option Nat :=
  fun s =>
    if s == "\x7b\"q\":1\x7d" then some 1
    else if s == "\x7b\"path\":\".\"\x7d" then some 2
    else none

def fragA : OpenAIDelta :=
  ⟨none, none, [⟨some 0, some "call_1", some "lookup", some "\x7b\"q\":"⟩]⟩

def fragB : OpenAIDelta :=
  ⟨none, none, [⟨some 0, none, none, some "1\x7d"⟩]⟩

/-- A chunk whose tool call never receives the closing brace of its args. -/
def fragBad : OpenAIDelta :=
  ⟨none, none, [⟨some 0, some "call_1", some "lookup", some "\x7b\"q\":"⟩]⟩

/-- A chunk carrying argument fragments for index 0 but never an id or a
name, next to a complete call at index 1. -/
def fragNoName : OpenAIDelta :=
  ⟨none, none, [⟨some 0, none, none, some "\x7b\"q\":1\x7d"⟩]⟩

def fragComplete : OpenAIDelta :=
  ⟨none, none, [⟨some 1, some "call_b", some "toolb", some "\x7b\"path\":\".\"\x7d"⟩]⟩

def historyTwo : List HistoryEntry :=
  [⟨"r1", "first question", ["first answer"]⟩, ⟨"r2", "second question", ["second answer"]⟩]

def summarizeOk : List HistoryEntry → Nat → Except String String :=
  fun _ _ => Except.ok "conversation summary"

def summarizeBoom : List HistoryEntry → Nat → Except String String :=
  fun _ _ => Except.error "model call failed"

def summarizeEmpty : List HistoryEntry → Nat → Except String String :=
  fun _ _ => Except.ok ""

def msgFive : TokMsg := ⟨[MsgPart.text "abcde"]⟩

def msgThree : TokMsg := ⟨[MsgPart.text "xyz"]⟩

/-- A provider counter that succeeds (with 7) on the first message and
throws on the second. -/
def counterMixed : TokMsg → Except String Nat :=
  fun msg => if msg == msgFive then Except.ok 7 else Except.error "tokenizer failed"

/-! # Theorems -/

/-! ## Stream-adapter lemmas -/

/-- The accumulated argument buffer at an index (empty when no entry). -/
def argsAt (m : AccMap) (idx : Nat) : String :=
  ((lookupAcc m idx).getD ⟨none, none, ""⟩).args

theorem lookupAcc_setAcc (m : AccMap) (i j : Nat) (a : ToolCallAcc) :
    lookupAcc (setAcc m i a) j = if i = j then some a else lookupAcc m j := by
  induction m with
  | nil =>
    by_cases h : i = j <;> simp [setAcc, lookupAcc, h]
  | cons hd tl ih =>
    obtain ⟨k, b⟩ := hd
    simp only [setAcc]
    by_cases hk : k = i
    · subst hk
      by_cases h : k = j <;> simp [lookupAcc, h]
    · simp only [if_neg hk, lookupAcc]
      by_cases h : k = j
      · subst h
        have h2 : ¬ i = k := fun hh => hk hh.symm
        simp [h2]
      · simp [h, ih]

theorem applyToolCallDelta_args (m : AccMap) (tc : ToolCallDelta) (idx : Nat) :
    argsAt (applyToolCallDelta m tc) idx =
      if tc.index.getD 0 = idx then argsAt m idx ++ (tc.args.getD "") else argsAt m idx := by
  unfold applyToolCallDelta argsAt
  rw [lookupAcc_setAcc]
  by_cases h : tc.index.getD 0 = idx
  · simp only [h, if_pos rfl, Option.getD_some]
    cases hid : tc.id <;> cases hnm : tc.name <;> cases hargs : tc.args <;>
      simp only [hid, hnm, hargs, Option.getD_some, Option.getD_none] <;>
      (repeat' split) <;> simp
  · simp [h]

theorem foldl_deltas_args (tcs : List ToolCallDelta) (idx : Nat) :
    ∀ m : AccMap,
      argsAt (tcs.foldl applyToolCallDelta m) idx =
        argsAt m idx ++
          strConcat (tcs.filterMap fun tc => if tc.index.getD 0 = idx then tc.args else none) := by
  induction tcs with
  | nil => intro m; simp [strConcat]
  | cons hd tl ih =>
    intro m
    simp only [List.foldl_cons, List.filterMap_cons]
    by_cases h : hd.index.getD 0 = idx
    · rw [ih, applyToolCallDelta_args, if_pos h]
      cases hargs : hd.args <;>
        simp [hargs, h, strConcat, String.append_assoc]
    · rw [ih, applyToolCallDelta_args, if_neg h]
      simp [h]

theorem processDeltas_snd (α : Type) (ds : List OpenAIDelta) :
    ∀ start : List (StreamEvent α) × AccMap,
      (ds.foldl
        (fun p d => (p.1 ++ deltaEvents d, d.toolCallDeltas.foldl applyToolCallDelta p.2))
        start).2
        = ds.foldl (fun m d => d.toolCallDeltas.foldl applyToolCallDelta m) start.2 := by
  induction ds with
  | nil => intro start; rfl
  | cons hd tl ih => intro start; simp only [List.foldl_cons]; exact ih _

theorem accMap_args_eq_concat (ds : List OpenAIDelta) (idx : Nat) :
    ∀ m : AccMap,
      argsAt (ds.foldl (fun m d => d.toolCallDeltas.foldl applyToolCallDelta m) m) idx =
        argsAt m idx ++ concatArgsFor idx ds := by
  induction ds with
  | nil => intro m; simp [concatArgsFor, strConcat]
  | cons hd tl ih =>
    intro m
    simp only [List.foldl_cons, concatArgsFor, List.map_cons]
    rw [ih, foldl_deltas_args]
    simp [concatArgsFor, strConcat, String.append_assoc]

/-- The args buffer accumulated for an index equals the concatenation, in
arrival order, of the argument fragments addressed to that index. -/
theorem processDeltas_args (α : Type) (ds : List OpenAIDelta) (idx : Nat) :
    argsAt (processDeltas α ds).2 idx = concatArgsFor idx ds := by
  have h1 : (processDeltas α ds).2
      = ds.foldl (fun m d => d.toolCallDeltas.foldl applyToolCallDelta m) [] :=
    processDeltas_snd α ds ([], [])
  rw [h1, accMap_args_eq_concat]
  simp [argsAt, lookupAcc]

theorem deltaEvents_no_toolUse {α : Type} (d : OpenAIDelta) :
    ∀ ev ∈ deltaEvents (α := α) d, ∀ n i p, ev ≠ StreamEvent.toolUse n i p := by
  unfold deltaEvents
  intro ev hev n i p
  rcases List.mem_append.mp hev with h | h
  · cases hc : d.content with
    | none => simp [hc] at h
    | some s =>
      simp only [hc] at h
      split at h
      all_goals simp at h
      simp [h]
  · cases hc : d.reasoning with
    | none => simp [hc] at h
    | some s =>
      simp only [hc] at h
      split at h
      all_goals simp at h
      simp [h]

theorem processDeltas_fst_no_toolUse {α : Type} (ds : List OpenAIDelta) :
    ∀ (start : List (StreamEvent α) × AccMap),
      (∀ ev ∈ start.1, ∀ n i p, ev ≠ StreamEvent.toolUse n i p) →
      ∀ ev ∈ (ds.foldl
          (fun p d => (p.1 ++ deltaEvents d, d.toolCallDeltas.foldl applyToolCallDelta p.2))
          start).1,
        ∀ n i p, ev ≠ StreamEvent.toolUse n i p := by
  induction ds with
  | nil => intro start h ev hev; exact h ev hev
  | cons hd tl ih =>
    intro start h ev hev
    refine ih _ ?_ ev hev
    intro ev2 hev2
    rcases List.mem_append.mp hev2 with h2 | h2
    · exact h ev2 h2
    · exact deltaEvents_no_toolUse hd ev2 h2

/-- During data consumption, no tool_use event is ever emitted. -/
theorem dataPhase_no_toolUse {α : Type} (ds : List OpenAIDelta) :
    ∀ ev ∈ (processDeltas α ds).1, ∀ n i p, ev ≠ StreamEvent.toolUse n i p := by
  intro ev hev
  exact processDeltas_fst_no_toolUse ds ([], []) (by simp) ev hev

theorem mem_insertSorted (a n : Nat) (l : List Nat) :
    a ∈ insertSorted n l ↔ a = n ∨ a ∈ l := by
  induction l with
  | nil => simp [insertSorted]
  | cons hd tl ih =>
    simp only [insertSorted]
    split
    all_goals simp [ih]
    tauto

theorem mem_sortNats (a : Nat) (l : List Nat) : a ∈ sortNats l ↔ a ∈ l := by
  induction l with
  | nil => simp [sortNats]
  | cons hd tl ih => simp [sortNats, mem_insertSorted, ih]

theorem lookupAcc_mem_keys (m : AccMap) (idx : Nat) (acc : ToolCallAcc)
    (h : lookupAcc m idx = some acc) : idx ∈ m.map Prod.fst := by
  induction m with
  | nil => simp [lookupAcc] at h
  | cons hd tl ih =>
    obtain ⟨k, b⟩ := hd
    simp only [lookupAcc] at h
    by_cases hk : k = idx
    · simp [hk]
    · simp only [if_neg hk] at h
      simp [ih h]

/-- A complete accumulator entry is finalized into exactly its tool_use. -/
theorem finalize_mem {α : Type} (jparse : String → Option α) (emptyObj : α)
    (m : AccMap) (idx : Nat) (acc : ToolCallAcc) (theId theName : String)
    (h : lookupAcc m idx = some acc)
    (hid : acc.id = some theId) (hname : acc.name = some theName) :
    StreamEvent.toolUse theName theId
        (if acc.args == "" then emptyObj else (jparse acc.args).getD emptyObj)
      ∈ finalizeToolCalls jparse emptyObj m := by
  unfold finalizeToolCalls
  refine List.mem_filterMap.mpr ⟨idx, ?_, ?_⟩
  · exact (mem_sortNats idx _).mpr (lookupAcc_mem_keys m idx acc h)
  · simp [h, hid, hname]

/-- Conversely, every finalized tool_use comes from an accumulator entry
that received both an id and a name. -/
theorem finalize_mem_inv {α : Type} (jparse : String → Option α) (emptyObj : α)
    (m : AccMap) (n i : String) (p : α)
    (h : StreamEvent.toolUse n i p ∈ finalizeToolCalls jparse emptyObj m) :
    ∃ idx acc, lookupAcc m idx = some acc ∧ acc.id = some i ∧ acc.name = some n ∧
      p = (if acc.args == "" then emptyObj else (jparse acc.args).getD emptyObj) := by
  unfold finalizeToolCalls at h
  obtain ⟨idx, _, hf⟩ := List.mem_filterMap.mp h
  refine ⟨idx, ?_⟩
  cases hl : lookupAcc m idx with
  | none => simp [hl] at hf
  | some acc =>
    refine ⟨acc, rfl, ?_⟩
    cases hid : acc.id with
    | none => simp [hl, hid] at hf
    | some a =>
      cases hname : acc.name with
      | none => simp [hl, hid, hname] at hf
      | some b =>
        simp only [hl, hid, hname, Option.some.injEq, StreamEvent.toolUse.injEq] at hf
        obtain ⟨hb, ha, hp⟩ := hf
        exact ⟨by rw [ha], by rw [hb], hp.symm⟩

/-! ## Claims C4, C5, C10 -/

/-- C4: when the arguments of a tool call arrive split across fragments,
the parameters of the finalized tool_use are exactly the JSON parse of the
concatenation of the fragments in arrival order; the fragments are
accumulated per stream-local index and the conversion happens only in the
end-of-stream events, never among the data-phase events. -/
theorem c4_fragment_accumulation {α : Type} [DecidableEq α]
    (jparse : String → Option α) (emptyObj : α)
    (ds : List OpenAIDelta) (idx : Nat) (acc : ToolCallAcc)
    (theId theName : String) (p : α)
    (hacc : lookupAcc (processDeltas α ds).2 idx = some acc)
    (hid : acc.id = some theId) (hname : acc.name = some theName)
    (hne : concatArgsFor idx ds ≠ "")
    (hp : jparse (concatArgsFor idx ds) = some p) :
    acc.args = concatArgsFor idx ds ∧
    StreamEvent.toolUse theName theId p ∈ openAIStreamEvents jparse emptyObj ds ∧
    ∀ ev ∈ (processDeltas α ds).1, ev ≠ StreamEvent.toolUse theName theId p := by
  have hargs : acc.args = concatArgsFor idx ds := by
    have h := processDeltas_args α ds idx
    rw [argsAt, hacc] at h
    exact h
  refine ⟨hargs, ?_, ?_⟩
  · have hmem := finalize_mem jparse emptyObj (processDeltas α ds).2 idx acc theId theName
      hacc hid hname
    rw [hargs] at hmem
    have hbeq : (concatArgsFor idx ds == "") = false := beq_eq_false_iff_ne.mpr hne
    simp only [hbeq, Bool.false_eq_true, if_false, hp, Option.getD_some] at hmem
    exact List.mem_append.mpr (Or.inr hmem)
  · intro ev hev
    exact dataPhase_no_toolUse ds ev hev theName theId p

/-- C4 witness: the object `{"q":1}` split across two chunks is finalized
into one tool_use whose parameters are its parse. -/
theorem c4_fragment_accumulation_witness :
    StreamEvent.toolUse "lookup" "call_1" 1 ∈ openAIStreamEvents jparseDemo 0 [fragA, fragB] ∧
    jparseDemo (concatArgsFor 0 [fragA, fragB]) = some 1 :=
  ⟨(c4_fragment_accumulation jparseDemo 0 [fragA, fragB] 0
      ⟨some "call_1", some "lookup", "\x7b\"q\":1\x7d"⟩ "call_1" "lookup" 1
      (by decide) rfl rfl (by decide) (by decide)).2.1,
    by decide⟩

/-- C5 counterexample: a tool call whose accumulated argument text is not
valid JSON is still emitted as a tool_use — with empty-object parameters —
so not every emitted tool_use carries parameters obtained from successfully
parsed argument JSON. -/
theorem c5_counterexample :
    openAIStreamEvents jparseDemo 0 [fragBad]
        = [StreamEvent.toolUse "lookup" "call_1" 0] ∧
    jparseDemo (concatArgsFor 0 [fragBad]) = none ∧
    concatArgsFor 0 [fragBad] ≠ "" := by
  exact ⟨by decide, by decide, by decide⟩

/-- C5 (amended): a tool_use is emitted only at stream end — the data phase
emits none — and the parameters of every emitted tool_use come from the
accumulated fragment concatenation: its successful parse when it parses,
and the empty object otherwise; raw partial JSON text is never surfaced. -/
theorem c5_amended {α : Type} [DecidableEq α] (jparse : String → Option α) (emptyObj : α)
    (ds : List OpenAIDelta) :
    (∀ ev ∈ (processDeltas α ds).1, ∀ n i p, ev ≠ StreamEvent.toolUse n i p) ∧
    (∀ (n i : String) (p : α),
      StreamEvent.toolUse n i p ∈ openAIStreamEvents jparse emptyObj ds →
      ∃ idx acc, lookupAcc (processDeltas α ds).2 idx = some acc ∧
        acc.id = some i ∧ acc.name = some n ∧ acc.args = concatArgsFor idx ds ∧
        (acc.args = "" → p = emptyObj) ∧
        (acc.args ≠ "" →
          (∀ q, jparse acc.args = some q → p = q) ∧
          (jparse acc.args = none → p = emptyObj))) := by
  refine ⟨dataPhase_no_toolUse ds, ?_⟩
  intro n i p hmem
  rcases List.mem_append.mp hmem with h | h
  · exact absurd rfl (dataPhase_no_toolUse ds _ h n i p)
  · obtain ⟨idx, acc, hl, hid, hname, hp⟩ := finalize_mem_inv jparse emptyObj _ n i p h
    have hargs : acc.args = concatArgsFor idx ds := by
      have h2 := processDeltas_args α ds idx
      rw [argsAt, hl] at h2
      exact h2
    refine ⟨idx, acc, hl, hid, hname, hargs, ?_, ?_⟩
    · intro hempty
      rw [hp, if_pos (by simp [hempty])]
    · intro hne
      constructor
      · intro q hq
        rw [hp, if_neg (by simp [hne]), hq, Option.getD_some]
      · intro hq
        rw [hp, if_neg (by simp [hne]), hq, Option.getD_none]

/-- C5 amended witness: the unparsable single-fragment call from the
counterexample input is attributed to its accumulator entry, with
empty-object parameters. -/
theorem c5_amended_witness :
    StreamEvent.toolUse "lookup" "call_1" 0 ∈ openAIStreamEvents jparseDemo 0 [fragBad] ∧
    ((processDeltas Nat [fragBad]).1 = [] ∨ (processDeltas Nat [fragBad]).1 ≠ []) := by
  constructor
  · have h := (c5_amended jparseDemo 0 [fragBad]).1
    exact List.mem_append.mpr (Or.inr (by decide))
  · left
    decide

/-- C10: an accumulated tool call that never received both an id and a name
is silently discarded at stream end: every tool_use that is emitted comes
from a different, complete accumulator entry, and the stream still resolves
normally. -/
theorem c10_incomplete_discarded {α : Type} (jparse : String → Option α) (emptyObj : α)
    (ds : List OpenAIDelta) (idx : Nat) (acc : ToolCallAcc)
    (hacc : lookupAcc (processDeltas α ds).2 idx = some acc)
    (hmiss : acc.id = none ∨ acc.name = none) :
    (∀ (n i : String) (p : α),
        StreamEvent.toolUse n i p ∈ openAIStreamEvents jparse emptyObj ds →
        ∃ idx2 acc2, lookupAcc (processDeltas α ds).2 idx2 = some acc2 ∧ idx2 ≠ idx ∧
          acc2.id = some i ∧ acc2.name = some n) ∧
    (openAIStreamOutcome jparse emptyObj ds).2 = StreamDone.resolved := by
  refine ⟨?_, rfl⟩
  intro n i p hmem
  rcases List.mem_append.mp hmem with h | h
  · exact absurd rfl (dataPhase_no_toolUse ds _ h n i p)
  · obtain ⟨idx2, acc2, hl, hid, hname, _⟩ := finalize_mem_inv jparse emptyObj _ n i p h
    refine ⟨idx2, acc2, hl, ?_, hid, hname⟩
    intro hEq
    subst hEq
    rw [hl] at hacc
    cases hacc
    rcases hmiss with hm | hm
    · rw [hid] at hm; cases hm
    · rw [hname] at hm; cases hm

/-- C10 witness: a fragment stream holding an args-only entry at index 0 and
a complete call at index 1 emits only the complete call; the nameless entry
vanishes without an error. -/
theorem c10_incomplete_discarded_witness :
    openAIStreamEvents jparseDemo (0 : Nat) [fragNoName, fragComplete]
        = [StreamEvent.toolUse "toolb" "call_b" 2] ∧
    (openAIStreamOutcome jparseDemo (0 : Nat) [fragNoName, fragComplete]).2
        = StreamDone.resolved :=
  ⟨by decide,
    (c10_incomplete_discarded jparseDemo 0 [fragNoName, fragComplete] 0
      ⟨none, none, "\x7b\"q\":1\x7d"⟩ (by decide) (Or.inl rfl)).2⟩

/-! ## Claim C6: exactly-once stream completion -/

/-- C6: per request, the event stream is completed exactly once — resolved
on the non-throwing path, rejected on the throwing path — the rejected /
rethrown error being the neutral canceled-request message precisely when
the thrown error is classified as cancellation. -/
theorem c6_exactly_once (call : Except String Unit) :
    (doSendChatRequest call).completions.length = 1 ∧
    (∀ v, call = Except.ok v →
      (doSendChatRequest call).completions = [StreamDone.resolved] ∧
      (doSendChatRequest call).result = Except.ok v) ∧
    (∀ e, call = Except.error e →
      (doSendChatRequest call).completions
          = [StreamDone.rejected (if isCanceledError e then canceledMessage else e)] ∧
      (doSendChatRequest call).result
          = Except.error (if isCanceledError e then canceledMessage else e)) := by
  cases call with
  | ok v =>
    refine ⟨rfl, ?_, ?_⟩
    · intro v2 h
      cases h
      exact ⟨rfl, rfl⟩
    · intro e h
      cases h
  | error e =>
    refine ⟨?_, ?_, ?_⟩
    · simp [doSendChatRequest]
    · intro v h
      cases h
    · intro e2 h
      cases h
      constructor <;> simp [doSendChatRequest]

/-- C6 witness: a thrown cancellation error is rejected once with the
neutral message; a normal return resolves once. -/
theorem c6_exactly_once_witness :
    (doSendChatRequest (Except.error "The operation was canceled")).completions
        = [StreamDone.rejected canceledMessage] ∧
    (doSendChatRequest (Except.ok ())).completions = [StreamDone.resolved] := by
  constructor
  · have h := ((c6_exactly_once (Except.error "The operation was canceled")).2.2
      "The operation was canceled" rfl).1
    rw [h]
    have hc : isCanceledError "The operation was canceled" = true := by decide
    rw [if_pos hc]
  · exact ((c6_exactly_once (Except.ok ())).2.1 () rfl).1

/-! ## Claims C7, C8: context compaction -/

/-- C7: for a history at or above the 90% threshold with at least two
entries, when the summarizer returns a non-empty summary and no
cancellation intervened, compaction returns the most recent
`max(1, ceil(0.1 · length))` entries verbatim prefixed by exactly one
synthetic summary entry, for a total length of `ceil(0.1 · length) + 1`. -/
theorem c7_compaction_length (history : List HistoryEntry)
    (summarize : List HistoryEntry → Nat → Except String String)
    (totalTokens maxInputTokens : Nat) (s : String) (first : HistoryEntry)
    (hlen : 2 ≤ history.length)
    (hthr : 9 * maxInputTokens ≤ 10 * totalTokens)
    (hfirst : (history.take (history.length - max 1 ((history.length + 9) / 10))).head?
        = some first)
    (hsum : summarize (history.take (history.length - max 1 ((history.length + 9) / 10)))
        (max 100 (maxInputTokens / 10)) = Except.ok s)
    (hne : s ≠ "") :
    maybeCompact history summarize false totalTokens maxInputTokens
      = Except.ok (summaryEntryFrom first s
          :: history.drop (history.length - max 1 ((history.length + 9) / 10))) ∧
    (summaryEntryFrom first s
        :: history.drop (history.length - max 1 ((history.length + 9) / 10))).length
      = (history.length + 9) / 10 + 1 := by
  constructor
  · unfold maybeCompact
    rw [if_pos ⟨hthr, by omega⟩]
    simp only [getHistoryWithSummarizationIfNeeded]
    rw [if_neg (by omega)]
    cases htake : history.take (history.length - max 1 ((history.length + 9) / 10)) with
    | nil => rw [htake] at hfirst; cases hfirst
    | cons a t =>
      rw [htake] at hfirst hsum
      simp only [List.head?_cons, Option.some.injEq] at hfirst
      subst hfirst
      simp only [hsum]
      rw [if_neg]
      intro hcontra
      rcases hcontra with hcontra | hcontra
      · exact hne (by simpa using hcontra)
      · cases hcontra
  · simp only [List.length_cons, List.length_drop]
    omega

/-- C7 witness: a two-entry history over the threshold compacts to the one
summary entry plus the one most recent entry. -/
theorem c7_compaction_length_witness :
    maybeCompact historyTwo summarizeOk false 90 100
      = Except.ok [⟨"r1", "[Earlier conversation summary]", ["conversation summary"]⟩,
          ⟨"r2", "second question", ["second answer"]⟩] ∧
    (historyTwo.length + 9) / 10 + 1 = 2 := by
  have h := c7_compaction_length historyTwo summarizeOk 90 100 "conversation summary"
    ⟨"r1", "first question", ["first answer"]⟩
    (by decide) (by decide) (by decide) rfl (by decide)
  exact ⟨h.1, by decide⟩

/-- C8 counterexample: when the summarizer model call throws, the compaction
step does not return the original history — the error propagates and the
enclosing turn surfaces an error message and stops, instead of proceeding. -/
theorem c8_counterexample :
    maybeCompact historyTwo summarizeBoom false 95 100
        = Except.error "model call failed" ∧
    runTurnCompactionStage historyTwo summarizeBoom false 95 100
        = TurnOutcome.erroredOut
            "**Error calling model:** model call failed\n\nPlease check your API key and model configuration." :=
  ⟨rfl, rfl⟩

/-- C8 (amended): on summarizer cancellation or empty output the original
history is returned unchanged and the turn proceeds; but a summarizer that
throws makes the compaction step throw, and the outer turn handler then
surfaces an error and ends the invocation instead of proceeding. -/
theorem c8_amended (history : List HistoryEntry)
    (summarize : List HistoryEntry → Nat → Except String String)
    (cancelledAfter : Bool) (totalTokens maxInputTokens : Nat) :
    (summarize (history.take (history.length - max 1 ((history.length + 9) / 10)))
          (max 100 (maxInputTokens / 10)) = Except.ok "" →
      maybeCompact history summarize cancelledAfter totalTokens maxInputTokens
          = Except.ok history ∧
      runTurnCompactionStage history summarize cancelledAfter totalTokens maxInputTokens
          = TurnOutcome.proceeded history) ∧
    (cancelledAfter = true →
      ∀ s, summarize (history.take (history.length - max 1 ((history.length + 9) / 10)))
          (max 100 (maxInputTokens / 10)) = Except.ok s →
      maybeCompact history summarize cancelledAfter totalTokens maxInputTokens
          = Except.ok history ∧
      runTurnCompactionStage history summarize cancelledAfter totalTokens maxInputTokens
          = TurnOutcome.proceeded history) ∧
    (∀ e, 9 * maxInputTokens ≤ 10 * totalTokens → 1 < history.length →
      summarize (history.take (history.length - max 1 ((history.length + 9) / 10)))
          (max 100 (maxInputTokens / 10)) = Except.error e →
      maybeCompact history summarize cancelledAfter totalTokens maxInputTokens
          = Except.error e ∧
      runTurnCompactionStage history summarize cancelledAfter totalTokens maxInputTokens
          = TurnOutcome.erroredOut
              ("**Error calling model:** " ++ e
                ++ "\n\nPlease check your API key and model configuration.")) := by
  refine ⟨?_, ?_, ?_⟩
  · intro hs
    have hm : maybeCompact history summarize cancelledAfter totalTokens maxInputTokens
        = Except.ok history := by
      unfold maybeCompact
      split
      case isTrue h =>
        simp only [getHistoryWithSummarizationIfNeeded]
        rw [if_neg (by omega)]
        cases htake : history.take (history.length - max 1 ((history.length + 9) / 10)) with
        | nil => rfl
        | cons a t =>
          rw [htake] at hs
          simp only [hs]
          simp
      case isFalse h => rfl
    exact ⟨hm, by unfold runTurnCompactionStage; rw [hm]⟩
  · intro hc s hs
    have hm : maybeCompact history summarize cancelledAfter totalTokens maxInputTokens
        = Except.ok history := by
      unfold maybeCompact
      split
      case isTrue h =>
        simp only [getHistoryWithSummarizationIfNeeded]
        rw [if_neg (by omega)]
        cases htake : history.take (history.length - max 1 ((history.length + 9) / 10)) with
        | nil => rfl
        | cons a t =>
          rw [htake] at hs
          simp only [hs]
          simp [hc]
      case isFalse h => rfl
    exact ⟨hm, by unfold runTurnCompactionStage; rw [hm]⟩
  · intro e hthr hlen hs
    have hm : maybeCompact history summarize cancelledAfter totalTokens maxInputTokens
        = Except.error e := by
      unfold maybeCompact
      rw [if_pos ⟨hthr, hlen⟩]
      simp only [getHistoryWithSummarizationIfNeeded]
      rw [if_neg (by omega)]
      cases htake : history.take (history.length - max 1 ((history.length + 9) / 10)) with
      | nil =>
        exfalso
        have hlt := congrArg List.length htake
        rw [List.length_take] at hlt
        simp only [List.length_nil] at hlt
        omega
      | cons a t =>
        rw [htake] at hs
        simp only [hs]
    exact ⟨hm, by unfold runTurnCompactionStage; rw [hm]⟩

/-- C8 amended witness: an empty summary keeps the turn going with the
original history, while a throwing summarizer ends the turn with the
surfaced error. -/
theorem c8_amended_witness :
    runTurnCompactionStage historyTwo summarizeEmpty false 95 100
        = TurnOutcome.proceeded historyTwo ∧
    runTurnCompactionStage historyTwo summarizeBoom false 95 100
        = TurnOutcome.erroredOut
            "**Error calling model:** model call failed\n\nPlease check your API key and model configuration." :=
  ⟨((c8_amended historyTwo summarizeEmpty false 95 100).1 rfl).2,
    ((c8_amended historyTwo summarizeBoom false 95 100).2.2 "model call failed"
      (by decide) (by decide) rfl).2⟩

/-! ## Claim C9: token accounting -/

theorem foldl_add_init (f : TokMsg → Nat) (l : List TokMsg) :
    ∀ init : Nat, l.foldl (fun a x => a + f x) init = init + l.foldl (fun a x => a + f x) 0 := by
  induction l with
  | nil => intro init; simp
  | cons hd tl ih =>
    intro init
    simp only [List.foldl_cons, Nat.zero_add]
    rw [ih (init + f hd), ih (f hd)]
    omega

theorem providerPhase_ok (counter : TokMsg → Except String Nat) (msgs : List TokMsg)
    (h : ∀ x ∈ msgs, ∃ n, counter x = Except.ok n) :
    ∀ t : Nat, providerPhase counter msgs t = Except.ok (t + okCountSum counter msgs) := by
  induction msgs with
  | nil => intro t; simp [providerPhase, okCountSum]
  | cons hd tl ih =>
    intro t
    obtain ⟨n, hn⟩ := h hd (List.mem_cons_self hd tl)
    simp only [providerPhase, hn, okCountSum]
    rw [ih (fun x hx => h x (List.mem_cons_of_mem hd hx)) (t + n)]
    congr 1
    omega

theorem providerPhase_err (counter : TokMsg → Except String Nat)
    (pre : List TokMsg) (msg : TokMsg) (post : List TokMsg) (e : String)
    (hpre : ∀ x ∈ pre, ∃ n, counter x = Except.ok n)
    (hmsg : counter msg = Except.error e) :
    ∀ t : Nat, providerPhase counter (pre ++ msg :: post) t
      = Except.error (t + okCountSum counter pre) := by
  induction pre with
  | nil =>
    intro t
    simp [providerPhase, hmsg, okCountSum]
  | cons hd tl ih =>
    intro t
    obtain ⟨n, hn⟩ := hpre hd (List.mem_cons_self hd tl)
    simp only [List.cons_append, List.append_eq, providerPhase, hn, okCountSum]
    rw [ih (fun x hx => hpre x (List.mem_cons_of_mem hd hx)) (t + n)]
    congr 1
    omega

/-- C9 counterexample: with a provider counter that returns 7 for the first
message and throws on the second, the function returns the partial provider
subtotal plus the per-message character heuristic — not the pure heuristic
sum the claim prescribes. -/
theorem c9_counterexample :
    computeTotalTokenCount counterMixed [msgFive, msgThree] = 10 ∧
    charEstimate msgFive + charEstimate msgThree = 3 ∧
    counterMixed msgFive = Except.ok 7 ∧
    counterMixed msgThree = Except.error "tokenizer failed" ∧
    computeTotalTokenCount counterMixed [msgFive, msgThree]
      ≠ charEstimate msgFive + charEstimate msgThree := by
  refine ⟨by decide, by decide, rfl, rfl, by decide⟩

/-- C9 (amended): when every provider count succeeds, the total is their
sum; when a provider count throws, the result is the provider subtotal
accumulated before the failure plus the character heuristic
`ceil(textLength / 4)` summed over all messages — so partial provider
counts are mixed into the fallback. -/
theorem c9_amended (counter : TokMsg → Except String Nat) :
    (∀ msgs : List TokMsg, (∀ x ∈ msgs, ∃ n, counter x = Except.ok n) →
      computeTotalTokenCount counter msgs = okCountSum counter msgs) ∧
    (∀ (pre : List TokMsg) (msg : TokMsg) (post : List TokMsg) (e : String),
      (∀ x ∈ pre, ∃ n, counter x = Except.ok n) →
      counter msg = Except.error e →
      computeTotalTokenCount counter (pre ++ msg :: post)
        = okCountSum counter pre
            + (pre ++ msg :: post).foldl (fun a x => a + charEstimate x) 0) := by
  constructor
  · intro msgs h
    unfold computeTotalTokenCount
    rw [providerPhase_ok counter msgs h 0]
    simp
  · intro pre msg post e hpre hmsg
    unfold computeTotalTokenCount
    rw [providerPhase_err counter pre msg post e hpre hmsg 0]
    simp only [Nat.zero_add]
    exact foldl_add_init charEstimate (pre ++ msg :: post) (okCountSum counter pre)

/-- C9 amended witness: the mixed-failure instance evaluates to the
partial-provider-plus-heuristic total. -/
theorem c9_amended_witness :
    computeTotalTokenCount counterMixed [msgFive, msgThree]
      = okCountSum counterMixed [msgFive]
          + ([msgFive] ++ msgThree :: []).foldl (fun a x => a + charEstimate x) 0 :=
  (c9_amended counterMixed).2 [msgFive] msgThree [] "tokenizer failed"
    (fun x hx => ⟨7, by
      have hxx : x = msgFive := by
        cases hx with
        | head => rfl
        | tail _ h2 => cases h2
      rw [hxx]
      rfl⟩)
    rfl

/-! ## Agent-loop lemmas -/

theorem iterStep_response (te : ToolCall → Except String (List ToolResultItem))
    (resp : ModelResponse) (c : CoreState) : (iterStep te resp c).2.response = resp := by
  obtain ⟨text, tcs⟩ := resp
  cases tcs <;> simp only [iterStep] <;> (repeat' split) <;> rfl

theorem iterStep_notes_mono (te : ToolCall → Except String (List ToolResultItem))
    (resp : ModelResponse) (c : CoreState) (x : String) (h : x ∈ c.notes) :
    x ∈ (iterStep te resp c).1.notes := by
  obtain ⟨text, tcs⟩ := resp
  cases tcs <;> simp only [iterStep] <;> (repeat' split) <;> simp [h]

/-- Behaviour of one iteration whose response carries exactly one tool call:
either the repetition guard fires (the call is not executed, the note is
emitted, the loop breaks) or the iteration continues with the pushed-and-
windowed key list. -/
theorem iterStep_single (te : ToolCall → Except String (List ToolResultItem))
    (resp : ModelResponse) (c : CoreState) (a : ToolCall)
    (h : resp.toolCalls = [a]) :
    (REPEATED_TOOL_CALL_THRESHOLD ≤
        (lastN REPEATED_TOOL_CALL_WINDOW (c.recentToolKeys ++ [keyOf a])).count (keyOf a) →
      (iterStep te resp c).2.exit = some ExitReason.repetition ∧
      (iterStep te resp c).2.executed = [] ∧
      (iterStep te resp c).1.notes = c.notes ++ [repetitionNote]) ∧
    (¬ REPEATED_TOOL_CALL_THRESHOLD ≤
        (lastN REPEATED_TOOL_CALL_WINDOW (c.recentToolKeys ++ [keyOf a])).count (keyOf a) →
      (iterStep te resp c).2.exit = none ∧
      (iterStep te resp c).1.recentToolKeys
        = lastN REPEATED_TOOL_CALL_WINDOW (c.recentToolKeys ++ [keyOf a]) ∧
      (iterStep te resp c).1.notes = c.notes) := by
  obtain ⟨text, tcs⟩ := resp
  simp only [ModelResponse.toolCalls] at h
  subst h
  constructor
  · intro hcond
    simp only [iterStep, List.map_cons, List.map_nil]
    rw [if_pos hcond]
    exact ⟨rfl, rfl, rfl⟩
  · intro hcond
    simp only [iterStep, List.map_cons, List.map_nil]
    rw [if_neg hcond]
    exact ⟨rfl, rfl, rfl⟩

/-- Behaviour of one iteration whose response carries at least one tool
call: the no-completion counter resets, the iteration counter advances, and
the iteration either breaks on repetition or executes all the calls. -/
theorem iterStep_toolcalls (te : ToolCall → Except String (List ToolResultItem))
    (resp : ModelResponse) (c : CoreState) (tc0 : ToolCall) (rest : List ToolCall)
    (h : resp.toolCalls = tc0 :: rest) :
    (iterStep te resp c).1.iterationCount = c.iterationCount + 1 ∧
    (iterStep te resp c).1.consecutiveNoComplete = 0 ∧
    ((iterStep te resp c).2.exit = some ExitReason.repetition ∧
        (iterStep te resp c).2.executed = []
      ∨ (iterStep te resp c).2.exit = none ∧
        (iterStep te resp c).1.notes = c.notes ∧
        (iterStep te resp c).2.executed = resp.toolCalls) := by
  obtain ⟨text, tcs⟩ := resp
  simp only [ModelResponse.toolCalls] at h
  subst h
  simp only [iterStep]
  split
  · exact ⟨rfl, rfl, Or.inl ⟨rfl, rfl⟩⟩
  · exact ⟨rfl, rfl, Or.inr ⟨rfl, rfl, rfl⟩⟩

/-- Behaviour of one iteration whose response carries no tool call and no
completion marker: at counter value 1 the loop breaks silent, otherwise it
nudges once and continues. -/
theorem iterStep_silent (te : ToolCall → Except String (List ToolResultItem))
    (resp : ModelResponse) (c : CoreState)
    (h0 : resp.toolCalls = [])
    (hm : strContains resp.text TASK_COMPLETE_SIGNAL = false) :
    (2 ≤ c.consecutiveNoComplete + 1 →
      (iterStep te resp c).2.exit = some ExitReason.silence ∧
      (iterStep te resp c).2.nudged = false) ∧
    (¬ 2 ≤ c.consecutiveNoComplete + 1 →
      (iterStep te resp c).2.exit = none ∧
      (iterStep te resp c).2.nudged = true ∧
      (iterStep te resp c).1.consecutiveNoComplete = c.consecutiveNoComplete + 1) := by
  obtain ⟨text, tcs⟩ := resp
  simp only [ModelResponse.toolCalls] at h0
  simp only [ModelResponse.text] at hm
  subst h0
  constructor
  · intro hcond
    simp only [iterStep]
    rw [if_neg (by simp [hm]), if_pos hcond]
    exact ⟨rfl, rfl⟩
  · intro hcond
    simp only [iterStep]
    rw [if_neg (by simp [hm]), if_neg hcond]
    exact ⟨rfl, rfl, rfl⟩

theorem runAux_trace_length_le (m : Nat → ModelResponse)
    (te : ToolCall → Except String (List ToolResultItem)) (ca : Nat → Bool) :
    ∀ (fuel : Nat) (c : CoreState), ((runAux m te ca fuel c).2).length ≤ fuel := by
  intro fuel
  induction fuel with
  | zero => intro c; simp [runAux]
  | succ fuel ih =>
    intro c
    simp only [runAux]
    split
    · simp
    · split
      · simp
      · simpa using Nat.succ_le_succ (ih _)

theorem runAux_notes_mono (m : Nat → ModelResponse)
    (te : ToolCall → Except String (List ToolResultItem)) (ca : Nat → Bool) (x : String) :
    ∀ (fuel : Nat) (c : CoreState), x ∈ c.notes → x ∈ ((runAux m te ca fuel c).1).notes := by
  intro fuel
  induction fuel with
  | zero => intro c h; simpa [runAux] using h
  | succ fuel ih =>
    intro c h
    simp only [runAux]
    split
    · exact h
    · split
      · exact iterStep_notes_mono te _ c x h
      · exact ih _ (iterStep_notes_mono te _ c x h)

/-- Peeling one iteration off a run whose trace has a record after index 0:
the first iteration did not cancel, did not break, and the run continues
from the stepped state. -/
theorem runAux_peel (m : Nat → ModelResponse)
    (te : ToolCall → Except String (List ToolResultItem)) (ca : Nat → Bool)
    (fuel : Nat) (c : CoreState) (j : Nat) (r : IterRecord)
    (h : ((runAux m te ca fuel c).2).get? (j+1) = some r) :
    ∃ fuel2, fuel = fuel2 + 1 ∧ ca c.iterationCount = false ∧
      (iterStep te (m c.iterationCount) c).2.exit = none ∧
      (runAux m te ca fuel c).2
        = (iterStep te (m c.iterationCount) c).2
            :: (runAux m te ca fuel2 (iterStep te (m c.iterationCount) c).1).2 ∧
      (runAux m te ca fuel c).1
        = (runAux m te ca fuel2 (iterStep te (m c.iterationCount) c).1).1 ∧
      ((runAux m te ca fuel2 (iterStep te (m c.iterationCount) c).1).2).get? j = some r := by
  cases fuel with
  | zero => simp [runAux] at h
  | succ fuel2 =>
    cases hca : ca c.iterationCount with
    | true => simp [runAux, hca] at h
    | false =>
      cases hex : (iterStep te (m c.iterationCount) c).2.exit with
      | some e => simp [runAux, hca, hex] at h
      | none =>
        have htr : (runAux m te ca (fuel2+1) c).2
            = (iterStep te (m c.iterationCount) c).2
                :: (runAux m te ca fuel2 (iterStep te (m c.iterationCount) c).1).2 := by
          simp [runAux, hca, hex]
        have hst : (runAux m te ca (fuel2+1) c).1
            = (runAux m te ca fuel2 (iterStep te (m c.iterationCount) c).1).1 := by
          simp [runAux, hca, hex]
        rw [htr] at h
        simp only [List.get?_cons_succ] at h
        exact ⟨fuel2, rfl, rfl, rfl, htr, hst, h⟩

/-- The first record of a non-empty trace is the record of iteration one;
when that iteration breaks, the run is exactly that one iteration. -/
theorem runAux_head (m : Nat → ModelResponse)
    (te : ToolCall → Except String (List ToolResultItem)) (ca : Nat → Bool)
    (fuel : Nat) (c : CoreState) (r : IterRecord)
    (h : ((runAux m te ca fuel c).2).get? 0 = some r) :
    r = (iterStep te (m c.iterationCount) c).2 ∧
    ((iterStep te (m c.iterationCount) c).2.exit ≠ none →
      (runAux m te ca fuel c).1 = (iterStep te (m c.iterationCount) c).1 ∧
      (runAux m te ca fuel c).2 = [(iterStep te (m c.iterationCount) c).2]) := by
  cases fuel with
  | zero => simp [runAux] at h
  | succ fuel2 =>
    cases hca : ca c.iterationCount with
    | true => simp [runAux, hca] at h
    | false =>
      cases hex : (iterStep te (m c.iterationCount) c).2.exit with
      | some e =>
        have heq : runAux m te ca (fuel2+1) c
            = ((iterStep te (m c.iterationCount) c).1,
                [(iterStep te (m c.iterationCount) c).2]) := by
          simp [runAux, hca, hex]
        rw [heq] at h
        simp only [List.get?_cons_zero, Option.some.injEq] at h
        exact ⟨h.symm, fun _ => by rw [heq]; exact ⟨rfl, rfl⟩⟩
      | none =>
        have htr : (runAux m te ca (fuel2+1) c).2
            = (iterStep te (m c.iterationCount) c).2
                :: (runAux m te ca fuel2 (iterStep te (m c.iterationCount) c).1).2 := by
          simp [runAux, hca, hex]
        rw [htr] at h
        simp only [List.get?_cons_zero, Option.some.injEq] at h
        exact ⟨h.symm, fun hne => absurd rfl hne⟩

/-- A record that carries a break reason is the last one: the trace stops
right after it. -/
theorem runAux_exit_length (m : Nat → ModelResponse)
    (te : ToolCall → Except String (List ToolResultItem)) (ca : Nat → Bool) :
    ∀ (i fuel : Nat) (c : CoreState) (r : IterRecord),
      ((runAux m te ca fuel c).2).get? i = some r → r.exit.isSome →
      ((runAux m te ca fuel c).2).length = i + 1 := by
  intro i
  induction i with
  | zero =>
    intro fuel c r h hex
    obtain ⟨hr, himp⟩ := runAux_head m te ca fuel c r h
    subst hr
    have hne : (iterStep te (m c.iterationCount) c).2.exit ≠ none := by
      intro hn
      rw [hn] at hex
      cases hex
    rw [(himp hne).2]
    rfl
  | succ i ih =>
    intro fuel c r h hex
    obtain ⟨fuel2, rfl, hca, hexit, htr, hst, hget⟩ := runAux_peel m te ca _ c i r h
    rw [htr]
    simp only [List.length_cons]
    rw [ih fuel2 _ r hget hex]

/-- Keeping the last `n` elements of a list that ends in a short suffix
keeps that suffix. -/
theorem lastN_append_tail (l t : List String)
    (h : t.length ≤ REPEATED_TOOL_CALL_WINDOW) :
    ∃ y, lastN REPEATED_TOOL_CALL_WINDOW (l ++ t)
        = y ++ t := by
  refine ⟨l.drop (l.length + t.length - REPEATED_TOOL_CALL_WINDOW), ?_⟩
  unfold lastN
  rw [List.length_append]
  exact List.drop_append_of_le_length (by omega)

theorem count_three_tail (y : List String) (k : String) :
    3 ≤ (y ++ [k, k, k]).count k := by
  rw [List.count_append]
  have h3 : ([k, k, k].count k) = 3 := by simp
  omega

/-- C1 induction kernel: whenever three consecutive trace records each carry
exactly one tool call with one shared key, the third one breaks the loop
with the repetition reason, executes nothing, ends the trace, and the
repetition note reaches the final state. -/
theorem c1_aux (m : Nat → ModelResponse)
    (te : ToolCall → Except String (List ToolResultItem)) (ca : Nat → Bool) :
    ∀ (i fuel : Nat) (c : CoreState) (r0 r1 r2 : IterRecord) (a b d : ToolCall),
      ((runAux m te ca fuel c).2).get? i = some r0 →
      ((runAux m te ca fuel c).2).get? (i+1) = some r1 →
      ((runAux m te ca fuel c).2).get? (i+2) = some r2 →
      r0.response.toolCalls = [a] → r1.response.toolCalls = [b] →
      r2.response.toolCalls = [d] →
      keyOf b = keyOf a → keyOf d = keyOf a →
      r2.exit = some ExitReason.repetition ∧ r2.executed = [] ∧
      ((runAux m te ca fuel c).2).length = i + 3 ∧
      repetitionNote ∈ ((runAux m te ca fuel c).1).notes := by
  intro i
  induction i with
  | zero =>
    intro fuel c r0 r1 r2 a b d h0 h1 h2 ha hb hd hba hda
    have h2out := h2
    -- first iteration: continues
    obtain ⟨fuel2, rfl, hca0, hex0, htr0, hst0, hg1⟩ := runAux_peel m te ca fuel c 0 r1 h1
    set c1 := (iterStep te (m c.iterationCount) c).1 with hc1
    have hr0 : r0 = (iterStep te (m c.iterationCount) c).2 := by
      rw [htr0] at h0
      simp only [List.get?_cons_zero, Option.some.injEq] at h0
      exact h0.symm
    have hresp0 : (m c.iterationCount).toolCalls = [a] := by
      rw [← iterStep_response te (m c.iterationCount) c, ← hr0]
      exact ha
    -- second iteration: continues
    rw [htr0] at h2
    simp only [List.get?_cons_succ] at h2
    obtain ⟨fuel3, hfe, hca1, hex1, htr1, hst1, hg2⟩ :=
      runAux_peel m te ca fuel2 c1 0 r2 h2
    set c2 := (iterStep te (m c1.iterationCount) c1).1 with hc2
    have hr1 : r1 = (iterStep te (m c1.iterationCount) c1).2 := by
      rw [htr1] at hg1
      simp only [List.get?_cons_zero, Option.some.injEq] at hg1
      exact hg1.symm
    have hresp1 : (m c1.iterationCount).toolCalls = [b] := by
      rw [← iterStep_response te (m c1.iterationCount) c1, ← hr1]
      exact hb
    -- third iteration: the record
    obtain ⟨hr2, himp2⟩ := runAux_head m te ca fuel3 c2 r2 hg2
    have hresp2 : (m c2.iterationCount).toolCalls = [d] := by
      rw [← iterStep_response te (m c2.iterationCount) c2, ← hr2]
      exact hd
    -- key evolution through the first two iterations
    have hs0 := iterStep_single te (m c.iterationCount) c a hresp0
    have hns0 : ¬ REPEATED_TOOL_CALL_THRESHOLD ≤
        (lastN REPEATED_TOOL_CALL_WINDOW (c.recentToolKeys ++ [keyOf a])).count (keyOf a) := by
      intro hcond
      have hx := (hs0.1 hcond).1
      rw [hex0] at hx
      cases hx
    have hkeys1 : c1.recentToolKeys
        = lastN REPEATED_TOOL_CALL_WINDOW (c.recentToolKeys ++ [keyOf a]) := by
      rw [hc1]
      exact (hs0.2 hns0).2.1
    have hs1 := iterStep_single te (m c1.iterationCount) c1 b hresp1
    have hns1 : ¬ REPEATED_TOOL_CALL_THRESHOLD ≤
        (lastN REPEATED_TOOL_CALL_WINDOW (c1.recentToolKeys ++ [keyOf b])).count (keyOf b) := by
      intro hcond
      have hx := (hs1.1 hcond).1
      rw [hex1] at hx
      cases hx
    have hkeys2 : c2.recentToolKeys
        = lastN REPEATED_TOOL_CALL_WINDOW (c1.recentToolKeys ++ [keyOf b]) := by
      rw [hc2]
      exact (hs1.2 hns1).2.1
    -- the window now ends in two occurrences of the key
    obtain ⟨y1, hy1⟩ : ∃ y, c1.recentToolKeys = y ++ [keyOf a] := by
      rw [hkeys1]
      exact lastN_append_tail c.recentToolKeys [keyOf a] (by simp [REPEATED_TOOL_CALL_WINDOW])
    obtain ⟨y2, hy2⟩ : ∃ y, c2.recentToolKeys = y ++ [keyOf a, keyOf a] := by
      rw [hkeys2, hba, hy1, List.append_assoc]
      simp only [List.singleton_append]
      exact lastN_append_tail y1 [keyOf a, keyOf a] (by simp [REPEATED_TOOL_CALL_WINDOW])
    -- the third occurrence pushes the count to the threshold
    have hs2 := iterStep_single te (m c2.iterationCount) c2 d hresp2
    have hcond2 : REPEATED_TOOL_CALL_THRESHOLD ≤
        (lastN REPEATED_TOOL_CALL_WINDOW (c2.recentToolKeys ++ [keyOf d])).count (keyOf d) := by
      rw [hda, hy2, List.append_assoc]
      simp only [List.cons_append, List.nil_append]
      obtain ⟨y3, hy3⟩ :=
        lastN_append_tail y2 [keyOf a, keyOf a, keyOf a]
          (by simp [REPEATED_TOOL_CALL_WINDOW])
      rw [hy3]
      simp only [REPEATED_TOOL_CALL_THRESHOLD]
      exact count_three_tail y3 (keyOf a)
    obtain ⟨hx2, hexec2, hnotes2⟩ := hs2.1 hcond2
    have hr2exit : r2.exit = some ExitReason.repetition := by rw [hr2]; exact hx2
    refine ⟨hr2exit, by rw [hr2]; exact hexec2, ?_, ?_⟩
    · exact runAux_exit_length m te ca 2 _ c r2 h2out (by rw [hr2exit]; rfl)
    · -- the note lands in the state of the third iteration and survives to the end
      have hin2 : repetitionNote ∈ (iterStep te (m c2.iterationCount) c2).1.notes := by
        rw [hnotes2]
        simp
      have hfin2 := himp2 (by rw [hx2]; intro hcontra; cases hcontra)
      rw [hst0, hst1, hfin2.1]
      exact hin2
  | succ i ih =>
    intro fuel c r0 r1 r2 a b d h0 h1 h2 ha hb hd hba hda
    obtain ⟨fuel2, rfl, hca0, hex0, htr0, hst0, hg0⟩ := runAux_peel m te ca fuel c i r0 h0
    rw [htr0] at h1 h2
    simp only [List.get?_cons_succ] at h1 h2
    have hrec := ih fuel2 _ r0 r1 r2 a b d hg0 h1 h2 ha hb hd hba hda
    refine ⟨hrec.1, hrec.2.1, ?_, ?_⟩
    · rw [htr0]
      simp only [List.length_cons]
      rw [hrec.2.2.1]
    · rw [hst0]
      exact hrec.2.2.2

/-- C3 induction kernel: two consecutive text-only, marker-free records mean
the first one nudged and continued while the second one broke silent
without nudging, and the trace stops right there. -/
theorem c3_aux (m : Nat → ModelResponse)
    (te : ToolCall → Except String (List ToolResultItem)) (ca : Nat → Bool) :
    ∀ (i fuel : Nat) (c : CoreState) (r0 r1 : IterRecord),
      ((runAux m te ca fuel c).2).get? i = some r0 →
      ((runAux m te ca fuel c).2).get? (i+1) = some r1 →
      r0.response.toolCalls = [] →
      strContains r0.response.text TASK_COMPLETE_SIGNAL = false →
      r1.response.toolCalls = [] →
      strContains r1.response.text TASK_COMPLETE_SIGNAL = false →
      r0.exit = none ∧ r0.nudged = true ∧
      r1.exit = some ExitReason.silence ∧ r1.nudged = false ∧
      ((runAux m te ca fuel c).2).length = i + 2 := by
  intro i
  induction i with
  | zero =>
    intro fuel c r0 r1 h0 h1 ht0 hm0 ht1 hm1
    have h1out := h1
    obtain ⟨fuel2, rfl, hca0, hex0, htr0, hst0, hg1⟩ := runAux_peel m te ca fuel c 0 r1 h1
    set c1 := (iterStep te (m c.iterationCount) c).1 with hc1
    have hr0 : r0 = (iterStep te (m c.iterationCount) c).2 := by
      rw [htr0] at h0
      simp only [List.get?_cons_zero, Option.some.injEq] at h0
      exact h0.symm
    have hresp0 : (m c.iterationCount).toolCalls = [] := by
      rw [← iterStep_response te (m c.iterationCount) c, ← hr0]
      exact ht0
    have hmresp0 : strContains (m c.iterationCount).text TASK_COMPLETE_SIGNAL = false := by
      rw [← iterStep_response te (m c.iterationCount) c, ← hr0]
      exact hm0
    have hs0 := iterStep_silent te (m c.iterationCount) c hresp0 hmresp0
    have hns0 : ¬ 2 ≤ c.consecutiveNoComplete + 1 := by
      intro hcond
      have hx := (hs0.1 hcond).1
      rw [hex0] at hx
      cases hx
    obtain ⟨hx0, hn0, hcnt1⟩ := hs0.2 hns0
    have hcnt1v : c1.consecutiveNoComplete = 1 := by
      rw [hc1, hcnt1]
      omega
    obtain ⟨hr1, himp1⟩ := runAux_head m te ca fuel2 c1 r1 hg1
    have hresp1 : (m c1.iterationCount).toolCalls = [] := by
      rw [← iterStep_response te (m c1.iterationCount) c1, ← hr1]
      exact ht1
    have hmresp1 : strContains (m c1.iterationCount).text TASK_COMPLETE_SIGNAL = false := by
      rw [← iterStep_response te (m c1.iterationCount) c1, ← hr1]
      exact hm1
    have hs1 := iterStep_silent te (m c1.iterationCount) c1 hresp1 hmresp1
    obtain ⟨hx1, hn1⟩ := hs1.1 (by omega)
    refine ⟨by rw [hr0]; exact hx0, by rw [hr0]; exact hn0,
      by rw [hr1]; exact hx1, by rw [hr1]; exact hn1, ?_⟩
    exact runAux_exit_length m te ca 1 _ c r1 h1out (by rw [hr1, hx1]; rfl)
  | succ i ih =>
    intro fuel c r0 r1 h0 h1 ht0 hm0 ht1 hm1
    obtain ⟨fuel2, rfl, hca0, hex0, htr0, hst0, hg0⟩ := runAux_peel m te ca fuel c i r0 h0
    rw [htr0] at h1
    simp only [List.get?_cons_succ] at h1
    have hrec := ih fuel2 _ r0 r1 hg0 h1 ht0 hm0 ht1 hm1
    refine ⟨hrec.1, hrec.2.1, hrec.2.2.1, hrec.2.2.2.1, ?_⟩
    rw [htr0]
    simp only [List.length_cons]
    rw [hrec.2.2.2.2]

/-- C2 induction kernel: a model that always calls at least one tool, under
a live token and a run that never trips the repetition guard, makes the
loop consume all its fuel, one request per unit, with untouched notes and a
reset no-completion counter. -/
theorem c2_aux (m : Nat → ModelResponse)
    (te : ToolCall → Except String (List ToolResultItem)) (ca : Nat → Bool)
    (hm : ∀ j, (m j).toolCalls ≠ [])
    (hca : ∀ j, ca j = false) :
    ∀ (fuel : Nat) (c : CoreState),
      (∀ r ∈ (runAux m te ca fuel c).2, r.exit ≠ some ExitReason.repetition) →
      ((runAux m te ca fuel c).2).length = fuel ∧
      ((runAux m te ca fuel c).1).iterationCount = c.iterationCount + fuel ∧
      ((runAux m te ca fuel c).1).notes = c.notes ∧
      (fuel = 0 → (runAux m te ca fuel c).1 = c) ∧
      (1 ≤ fuel → ((runAux m te ca fuel c).1).consecutiveNoComplete = 0) := by
  intro fuel
  induction fuel with
  | zero =>
    intro c hnorep
    refine ⟨rfl, rfl, rfl, fun _ => rfl, fun hcontra => by omega⟩
  | succ fuel ih =>
    intro c hnorep
    cases htc : (m c.iterationCount).toolCalls with
    | nil => exact absurd htc (hm c.iterationCount)
    | cons tc0 rest =>
      have hstep := iterStep_toolcalls te (m c.iterationCount) c tc0 rest htc
      have hexit : (iterStep te (m c.iterationCount) c).2.exit = none := by
        rcases hstep.2.2 with ⟨hrep, _⟩ | ⟨hnone, _⟩
        · exfalso
          have hmem : (iterStep te (m c.iterationCount) c).2 ∈ (runAux m te ca (fuel+1) c).2 := by
            simp only [runAux, hca c.iterationCount]
            rw [hrep]
            simp
          exact hnorep _ hmem (by rw [hrep])
        · exact hnone
      have htr : (runAux m te ca (fuel+1) c).2
          = (iterStep te (m c.iterationCount) c).2
              :: (runAux m te ca fuel (iterStep te (m c.iterationCount) c).1).2 := by
        simp [runAux, hca c.iterationCount, hexit]
      have hst : (runAux m te ca (fuel+1) c).1
          = (runAux m te ca fuel (iterStep te (m c.iterationCount) c).1).1 := by
        simp [runAux, hca c.iterationCount, hexit]
      have hnorep2 : ∀ r ∈ (runAux m te ca fuel (iterStep te (m c.iterationCount) c).1).2,
          r.exit ≠ some ExitReason.repetition := by
        intro r hr
        refine hnorep r ?_
        rw [htr]
        exact List.mem_cons_of_mem _ hr
      have hrec := ih (iterStep te (m c.iterationCount) c).1 hnorep2
      have hnotes1 : (iterStep te (m c.iterationCount) c).1.notes = c.notes := by
        rcases hstep.2.2 with ⟨hrep, _⟩ | ⟨_, hn, _⟩
        · exfalso
          rw [hrep] at hexit
          cases hexit
        · exact hn
      refine ⟨?_, ?_, ?_, ?_, ?_⟩
      · rw [htr]
        simp only [List.length_cons]
        rw [hrec.1]
      · rw [hst, hrec.2.1, hstep.1]
        omega
      · rw [hst, hrec.2.2.1, hnotes1]
      · intro hcontra
        cases hcontra
      · intro _
        cases fuel with
        | zero =>
          rw [hst, hrec.2.2.2.1 rfl]
          exact hstep.2.1
        | succ fuel3 =>
          rw [hst]
          exact hrec.2.2.2.2 (by omega)

/-! ## Interface lemmas between `agentRun` and the loop -/

theorem agentRun_trace (cfg : Nat) (m : Nat → ModelResponse)
    (te : ToolCall → Except String (List ToolResultItem)) (ca : Nat → Bool)
    (init : List Msg) :
    (agentRun cfg m te ca init).trace
      = (runAux m te ca (clampMaxIterations cfg) (initialState init)).2 := rfl

theorem agentRun_finalState (cfg : Nat) (m : Nat → ModelResponse)
    (te : ToolCall → Except String (List ToolResultItem)) (ca : Nat → Bool)
    (init : List Msg) :
    (agentRun cfg m te ca init).finalState
      = (runAux m te ca (clampMaxIterations cfg) (initialState init)).1 := rfl

theorem agentRun_notes_eq (cfg : Nat) (m : Nat → ModelResponse)
    (te : ToolCall → Except String (List ToolResultItem)) (ca : Nat → Bool)
    (init : List Msg) :
    (agentRun cfg m te ca init).notes
      = (if clampMaxIterations cfg
            ≤ ((runAux m te ca (clampMaxIterations cfg) (initialState init)).1).iterationCount
          ∨ 2 ≤ ((runAux m te ca (clampMaxIterations cfg) (initialState init)).1).consecutiveNoComplete
         then
          if 2 ≤ ((runAux m te ca (clampMaxIterations cfg) (initialState init)).1).consecutiveNoComplete
              ∧ ((runAux m te ca (clampMaxIterations cfg) (initialState init)).1).hasEverEmitted = false
          then ((runAux m te ca (clampMaxIterations cfg) (initialState init)).1).notes ++ [noResponseNote]
          else if clampMaxIterations cfg
              ≤ ((runAux m te ca (clampMaxIterations cfg) (initialState init)).1).iterationCount
          then ((runAux m te ca (clampMaxIterations cfg) (initialState init)).1).notes ++ [iterationLimitNote]
          else ((runAux m te ca (clampMaxIterations cfg) (initialState init)).1).notes
         else ((runAux m te ca (clampMaxIterations cfg) (initialState init)).1).notes) := rfl

theorem agentRun_notes_mem (cfg : Nat) (m : Nat → ModelResponse)
    (te : ToolCall → Except String (List ToolResultItem)) (ca : Nat → Bool)
    (init : List Msg) (x : String)
    (h : x ∈ ((runAux m te ca (clampMaxIterations cfg) (initialState init)).1).notes) :
    x ∈ (agentRun cfg m te ca init).notes := by
  rw [agentRun_notes_eq]
  split
  · split
    · exact List.mem_append.mpr (Or.inl h)
    · split
      · exact List.mem_append.mpr (Or.inl h)
      · exact h
  · exact h

/-! ## Claims C1, C2, C3 -/

/-- C1: in any run whose trace contains three consecutive iterations each
producing exactly one tool call with identical key (name plus serialized
parameters), the third such call is never dispatched, the loop breaks there
with the repetition reason, and the explanatory note is emitted. -/
theorem c1_repetition_guard (cfg : Nat) (m : Nat → ModelResponse)
    (te : ToolCall → Except String (List ToolResultItem)) (ca : Nat → Bool)
    (init : List Msg) (i : Nat) (r0 r1 r2 : IterRecord) (a b d : ToolCall)
    (h0 : (agentRun cfg m te ca init).trace.get? i = some r0)
    (h1 : (agentRun cfg m te ca init).trace.get? (i+1) = some r1)
    (h2 : (agentRun cfg m te ca init).trace.get? (i+2) = some r2)
    (ha : r0.response.toolCalls = [a]) (hb : r1.response.toolCalls = [b])
    (hd : r2.response.toolCalls = [d])
    (hba : keyOf b = keyOf a) (hda : keyOf d = keyOf a) :
    r2.exit = some ExitReason.repetition ∧ r2.executed = [] ∧
    (agentRun cfg m te ca init).trace.length = i + 3 ∧
    repetitionNote ∈ (agentRun cfg m te ca init).notes := by
  rw [agentRun_trace] at h0 h1 h2
  have h := c1_aux m te ca i (clampMaxIterations cfg) (initialState init)
    r0 r1 r2 a b d h0 h1 h2 ha hb hd hba hda
  refine ⟨h.1, h.2.1, ?_, agentRun_notes_mem cfg m te ca init repetitionNote h.2.2.2⟩
  rw [agentRun_trace]
  exact h.2.2.1

/-- C1 witness: a model that repeats one identical call is stopped at the
third iteration with the repetition note. -/
theorem c1_repetition_guard_witness :
    (agentRun 25 (fun _ => respRep) teOk caFalse []).trace.length = 0 + 3 ∧
    repetitionNote ∈ (agentRun 25 (fun _ => respRep) teOk caFalse []).notes := by
  have h := c1_repetition_guard 25 (fun _ => respRep) teOk caFalse [] 0
    ⟨respRep, [tcRep], false, none⟩ ⟨respRep, [tcRep], false, none⟩
    ⟨respRep, [], false, some ExitReason.repetition⟩ tcRep tcRep tcRep
    (by decide) (by decide) (by decide) rfl rfl rfl rfl rfl
  exact ⟨h.2.2.1, h.2.2.2⟩

/-- C2 counterexample: a model behaviour that issues one tool call on every
iteration and never emits the completion marker, yet the loop stops after 3
requests (not the default 25) with the repetition note, not the
iteration-limit note. -/
theorem c2_counterexample :
    respRep.toolCalls.length = 1 ∧
    strContains respRep.text TASK_COMPLETE_SIGNAL = false ∧
    DEFAULT_MAX_ITERATIONS = 25 ∧
    clampMaxIterations DEFAULT_MAX_ITERATIONS = 25 ∧
    (agentRun DEFAULT_MAX_ITERATIONS (fun _ => respRep) teOk caFalse []).trace.length = 3 ∧
    (agentRun DEFAULT_MAX_ITERATIONS (fun _ => respRep) teOk caFalse []).notes
        = [repetitionNote] ∧
    iterationLimitNote ∉ (agentRun DEFAULT_MAX_ITERATIONS (fun _ => respRep) teOk caFalse []).notes := by
  refine ⟨rfl, rfl, rfl, rfl, by decide, by decide, by decide⟩

/-- C2 (amended): for a model behaviour that issues at least one tool call
on every iteration, never emits the completion marker, and never trips the
repetition guard, the loop issues exactly `min(100, max(1, maxIterations))`
chat requests (default configuration 25) and ends with the iteration-limit
note; and no run whatsoever exceeds that clamped bound, which is at most
100. -/
theorem c2_iteration_limit_amended (cfg : Nat) (m : Nat → ModelResponse)
    (te : ToolCall → Except String (List ToolResultItem)) (ca : Nat → Bool)
    (init : List Msg)
    (hm : ∀ j, (m j).toolCalls ≠ [] ∧ strContains (m j).text TASK_COMPLETE_SIGNAL = false)
    (hca : ∀ j, ca j = false)
    (hnorep : ∀ r ∈ (agentRun cfg m te ca init).trace, r.exit ≠ some ExitReason.repetition) :
    (agentRun cfg m te ca init).trace.length = clampMaxIterations cfg ∧
    (agentRun cfg m te ca init).notes = [iterationLimitNote] ∧
    DEFAULT_MAX_ITERATIONS = 25 ∧
    (∀ (cfg2 : Nat) (m2 : Nat → ModelResponse)
        (te2 : ToolCall → Except String (List ToolResultItem))
        (ca2 : Nat → Bool) (init2 : List Msg),
      (agentRun cfg2 m2 te2 ca2 init2).trace.length ≤ clampMaxIterations cfg2 ∧
      clampMaxIterations cfg2 ≤ 100) := by
  have hm1 : ∀ j, (m j).toolCalls ≠ [] := fun j => (hm j).1
  rw [agentRun_trace] at hnorep
  have hfin := c2_aux m te ca hm1 hca (clampMaxIterations cfg) (initialState init) hnorep
  have hclamp1 : 1 ≤ clampMaxIterations cfg := by
    unfold clampMaxIterations
    omega
  have hcnt0 : ((runAux m te ca (clampMaxIterations cfg) (initialState init)).1).consecutiveNoComplete
      = 0 := hfin.2.2.2.2 hclamp1
  have hit : ((runAux m te ca (clampMaxIterations cfg) (initialState init)).1).iterationCount
      = clampMaxIterations cfg := by
    rw [hfin.2.1]
    simp [initialState]
  have hnotes0 : ((runAux m te ca (clampMaxIterations cfg) (initialState init)).1).notes = [] := by
    rw [hfin.2.2.1]
    rfl
  refine ⟨?_, ?_, rfl, ?_⟩
  · rw [agentRun_trace, hfin.1]
  · rw [agentRun_notes_eq, hit, hcnt0, hnotes0]
    rw [if_pos (Or.inl le_rfl)]
    rw [if_neg (fun hcon => absurd hcon.1 (by omega))]
    rw [if_pos le_rfl]
    rfl
  · intro cfg2 m2 te2 ca2 init2
    constructor
    · rw [agentRun_trace]
      exact runAux_trace_length_le m2 te2 ca2 (clampMaxIterations cfg2) (initialState init2)
    · exact Nat.min_le_left 100 (max 1 cfg2)

/-- C2 amended witness: a model issuing a fresh tool call each round runs
exactly the clamped number of iterations and ends with the
iteration-limit note. -/
theorem c2_iteration_limit_amended_witness :
    (agentRun 2 mDistinct teOk caFalse []).trace.length = clampMaxIterations 2 ∧
    (agentRun 2 mDistinct teOk caFalse []).notes = [iterationLimitNote] := by
  have h := c2_iteration_limit_amended 2 mDistinct teOk caFalse []
    (fun j => ⟨by simp [mDistinct], rfl⟩) (fun _ => rfl) (by decide)
  exact ⟨h.1, h.2.1⟩

/-- C3: in any run whose trace contains two consecutive records carrying
plain text without tool calls and without the completion marker, the loop
stops right after the second one — no further request is issued — with the
one nudge appended after the first of the two and none after the second. -/
theorem c3_silence_stop (cfg : Nat) (m : Nat → ModelResponse)
    (te : ToolCall → Except String (List ToolResultItem)) (ca : Nat → Bool)
    (init : List Msg) (i : Nat) (r0 r1 : IterRecord)
    (h0 : (agentRun cfg m te ca init).trace.get? i = some r0)
    (h1 : (agentRun cfg m te ca init).trace.get? (i+1) = some r1)
    (ht0 : r0.response.toolCalls = [])
    (hm0 : strContains r0.response.text TASK_COMPLETE_SIGNAL = false)
    (ht1 : r1.response.toolCalls = [])
    (hm1 : strContains r1.response.text TASK_COMPLETE_SIGNAL = false) :
    r0.exit = none ∧ r0.nudged = true ∧
    r1.exit = some ExitReason.silence ∧ r1.nudged = false ∧
    (agentRun cfg m te ca init).trace.length = i + 2 := by
  rw [agentRun_trace] at h0 h1
  have h := c3_aux m te ca i (clampMaxIterations cfg) (initialState init)
    r0 r1 h0 h1 ht0 hm0 ht1 hm1
  refine ⟨h.1, h.2.1, h.2.2.1, h.2.2.2.1, ?_⟩
  rw [agentRun_trace]
  exact h.2.2.2.2

/-- C3 witness: a model that answers twice with marker-free text is stopped
after exactly 2 responses, with a nudge between them. -/
theorem c3_silence_stop_witness :
    (agentRun 25 (fun _ => respSilent) teOk caFalse []).trace.length = 0 + 2 ∧
    nudgeMsg ∈ ((agentRun 25 (fun _ => respSilent) teOk caFalse []).finalState).conversation := by
  have h := c3_silence_stop 25 (fun _ => respSilent) teOk caFalse [] 0
    ⟨respSilent, [], true, none⟩ ⟨respSilent, [], false, some ExitReason.silence⟩
    (by decide) (by decide) rfl rfl rfl rfl
  exact ⟨h.2.2.2.2, by decide⟩

end LoCoPilot
